import Mathlib

/-!
Verification of the Squarespace Mercury soft-navigation engine
(`src/Mercury.js`, `src/utils.js`, `src/validation.js`, `src/constants.js`).

The engine is embedded shallowly:

* the live document and the parsed response document are association lists
  from selector strings to elements (an element is an attribute list plus
  its inner HTML string); `document.querySelector` is lookup, and a set of
  invalid selector strings (`badSelectors`, a host parameter) makes the
  lookup throw, as the host query capability does on malformed selectors;
* the engine instance plus the relevant host state (history stack, scroll
  offsets, pending XHR deliveries, pending timer, location) form one
  record `EngineState`; each JS event handler becomes a state-transition
  function, and thrown JS exceptions become the `Except` error branch
  carrying the partially mutated state (JS exceptions do not roll back);
* `window.location = url` (fallback full top-level navigation) is recorded
  in the `loc` field; `console.error` calls are counted in `errors`, and
  exceptions that escape to the host event loop are counted in `uncaught`;
* configuration validation (`validation.js`) operates on a small model of
  JS values (`JSVal`) with JS `typeof`, property access and array tests.
-/

namespace Mercury

/-- Scroll offset pair, as stored in a history state object. -/
structure Scroll where
  x : Int
  y : Int
  deriving DecidableEq, Repr

/-- A history state object: `{ url, scroll }` with `scroll` possibly absent. -/
structure HistoryEntry where
  url : String
  scroll : Option Scroll
  deriving DecidableEq, Repr

/-- An attribute is a name/value pair of strings. -/
abbrev Attr := String × String

/-- A document element: its attribute list and its inner HTML markup. -/
structure Element where
  attrs : List Attr
  innerHTML : String
  deriving DecidableEq, Repr

/-- The document model: an association list from selector strings to the
element the host query capability would return for that selector. -/
abbrev Dom := List (String × Element)

/-- Embeds `document.querySelector`, on a selector the host accepts: first match
or `none`. -/
def domGet (d : Dom) (sel : String) : Option Element :=
  (d.find? (fun p => p.1 = sel)).map (fun p => p.2)

/-- Apply `f` to the element stored for `sel` (first matching entry). -/
def domModify (d : Dom) (sel : String) (f : Element → Element) : Dom :=
  match d with
  | [] => []
  | p :: rest =>
      if p.1 = sel then (p.1, f p.2) :: rest
      else p :: domModify rest sel f

/-- Embeds `activeElement.parentNode.removeChild(activeElement)`: drop the entry. -/
def domRemove (d : Dom) (sel : String) : Dom :=
  match d with
  | [] => []
  | p :: rest => if p.1 = sel then rest else p :: domRemove rest sel

/-- Embeds `element.removeAttribute(name)`. -/
def removeAttribute (attrs : List Attr) (name : String) : List Attr :=
  attrs.filter (fun p => p.1 ≠ name)

/-- Embeds `element.setAttribute(name, value)`: overwrite in place when the name
is present, append otherwise. -/
def setAttribute (attrs : List Attr) (name value : String) : List Attr :=
  if attrs.any (fun p => p.1 = name) then
    attrs.map (fun p => if p.1 = name then (name, value) else p)
  else
    attrs ++ [(name, value)]

/-- Embeds `replaceAttributes(element, referenceElement)` from `src/utils.js`:
snapshot the attribute names of `element`, remove each of them, then copy
every attribute of `referenceElement` onto `element`. -/
def replaceAttributes (element referenceElement : Element) : Element :=
  let elementAttributes := element.attrs
  let cleared := (elementAttributes.map (fun p => p.1)).foldl removeAttribute element.attrs
  { element with
      attrs := referenceElement.attrs.foldl (fun a p => setAttribute a p.1 p.2) cleared }

/-- The per-URL, per-selector fragment cache (`this.cache`). -/
abbrev Cache := List (String × List (String × String))

/-- Embeds `this.cache[url] && this.cache[url][selector]`: the stored markup. -/
def cacheGet (c : Cache) (url sel : String) : Option String :=
  (c.find? (fun p => p.1 = url)).bind
    (fun p => ((p.2.find? (fun q => q.1 = sel)).map (fun q => q.2)))

/-- Embeds `this.cache[url] = this.cache[url] || {}`. -/
def cacheEnsure (c : Cache) (url : String) : Cache :=
  if (c.find? (fun p => p.1 = url)).isSome then c else c ++ [(url, [])]

/-- Embeds `this.cache[url][selector] = v`. -/
def cacheSet (c : Cache) (url sel v : String) : Cache :=
  c.map (fun p =>
    if p.1 = url then
      (p.1,
        if p.2.any (fun q => q.1 = sel) then
          p.2.map (fun q => if q.1 = sel then (sel, v) else q)
        else p.2 ++ [(sel, v)])
    else p)

/-- One configured update rule from the update matrix. The JS fields
`updateHTML` and `updateAttrs` are used only under truthiness tests, so a
validated rule is captured by two booleans. -/
structure UpdateRule where
  selector : String
  updateHTML : Bool
  updateAttrs : Bool
  deriving DecidableEq, Repr

/-- One XHR navigation request: the id the host uses to route completion
events, the target url, the popstate flag, and the scroll restoration
callback (`some` exactly for popstate navigations, carrying the optional
scroll offset of the traversed history entry). -/
structure Request where
  id : Nat
  url : String
  isPop : Bool
  cbScroll : Option (Option Scroll)
  deriving DecidableEq, Repr

/-- A network response: the raw text and the document the host HTML parser
produces from it (`DOMParser.parseFromString`). -/
structure Response where
  text : String
  dom : Dom

/-- A scheduled delayed apply (`this.onLoadDelayTimeout` payload): the
arguments the `setTimeout` closure passes to `modifyPageAndHistory`. -/
structure TimerTask where
  url : String
  isPop : Bool
  cbScroll : Option (Option Scroll)
  resp : Response

/-- The engine instance together with the host state it interacts with.

Configuration fields (immutable after construction): `updateMatrix`,
`enableCache`, `onLoadDelay`, `reqException` (the compiled
`onRequestExceptionRegex`, abstracted to its matching function), and
`badSelectors`, the set of selector strings on which the host query
capability throws.

Engine fields: `listenersBound` (the click and popstate listeners are
attached), `xhr` (the current `this.XHR` object, by its request),
`pendingTimer` (`this.onLoadDelayTimeout`), `cache`.

Host fields: `inFlight` is the set of requests whose completion the host
may still deliver (abort removes a request from it), `nextId` a fresh-id
counter, `dom` the live document, `histCurrent`/`histBack` the session
history stack (current entry on top), `locationUrl`, the scroll offsets,
`loc` a pending full top-level navigation (`window.location = url`),
`errors` the number of `console.error` calls, and `uncaught` the number
of exceptions that escaped to the host event loop. -/
structure EngineState where
  updateMatrix : List UpdateRule
  enableCache : Bool
  onLoadDelay : Nat
  reqException : Option (String → Bool)
  badSelectors : List String
  listenersBound : Bool
  xhr : Option Request
  inFlight : List Request
  pendingTimer : Option TimerTask
  nextId : Nat
  dom : Dom
  cache : Cache
  histCurrent : HistoryEntry
  histBack : List HistoryEntry
  locationUrl : String
  scrollX : Int
  scrollY : Int
  loc : Option String
  errors : Nat
  uncaught : Nat

/-- History depth: number of entries on the session history stack. -/
def histDepth (s : EngineState) : Nat :=
  s.histBack.length + 1

/-- Collapse an exceptional outcome to the state it carries (JS exceptions
do not roll back mutations). -/
def runExcept (r : Except EngineState EngineState) : EngineState :=
  match r with
  | .ok t => t
  | .error t => t

/-- The cached markup actually used by `updateDOM`, following the JS
truthiness chain `this.enableCache && this.cache[url] &&
this.cache[url][updateConfig.selector]`: an empty cached string is falsy
and therefore ignored. -/
def cachedValue (s : EngineState) (url sel : String) : Option String :=
  if s.enableCache then
    match cacheGet s.cache url sel with
    | some v => if v = "" then none else some v
    | none => none
  else none

/-- One iteration of the `updateMatrix.forEach` loop in `updateDOM`
(`src/Mercury.js`). A selector in `badSelectors` makes `querySelector`
throw, which aborts the loop with the state mutated so far. -/
def applyRule (s : EngineState) (url : String) (newDoc : Dom)
    (rule : UpdateRule) : Except EngineState EngineState :=
  if rule.selector ∈ s.badSelectors then .error s
  else
    match domGet s.dom rule.selector, domGet newDoc rule.selector with
    | some _, some referenceElement =>
        let s1 :=
          if rule.updateHTML then
            { s with dom := domModify s.dom rule.selector (fun el =>
                { el with innerHTML :=
                    (cachedValue s url rule.selector).getD referenceElement.innerHTML }) }
          else s
        let s2 :=
          if rule.updateAttrs then
            { s1 with dom :=
                domModify s1.dom rule.selector (fun el => replaceAttributes el referenceElement) }
          else s1
        .ok s2
    | some _, none => .ok { s with dom := domRemove s.dom rule.selector }
    | none, _ => .ok s

/-- The `forEach` loop over the whole update matrix. -/
def applyRules (url : String) (newDoc : Dom) :
    List UpdateRule → EngineState → Except EngineState EngineState
  | [], s => .ok s
  | rule :: rest, s => (applyRule s url newDoc rule).bind (applyRules url newDoc rest)

/-- Embeds `updateDOM(url, responseText)`: parse the response, run the update
matrix, then `window.scrollTo(0, 0)`. -/
def updateDOM (url : String) (resp : Response) (s : EngineState) :
    Except EngineState EngineState :=
  (applyRules url resp.dom s.updateMatrix s).map
    (fun t => { t with scrollX := 0, scrollY := 0 })

/-- The popstate scroll-restoration callback passed to `makeRequest` by
`onPopState`: restore the stored offset, or scroll to the origin. -/
def applyCallback (cbScroll : Option (Option Scroll)) (s : EngineState) : EngineState :=
  match cbScroll with
  | some (some sc) => { s with scrollX := sc.x, scrollY := sc.y }
  | some none => { s with scrollX := 0, scrollY := 0 }
  | none => s

/-- Embeds `modifyPageAndHistory(url, isPopState, callback, responseText)`: push
a new `{ url }` history state unless the navigation is a popstate replay
(pushing also rewrites the address bar), then update the DOM, then run
the callback. -/
def modifyPageAndHistory (url : String) (isPop : Bool)
    (cbScroll : Option (Option Scroll)) (resp : Response) (s : EngineState) :
    Except EngineState EngineState :=
  let s0 :=
    if isPop then s
    else { s with
            histBack := s.histCurrent :: s.histBack,
            histCurrent := { url := url, scroll := none },
            locationUrl := url }
  (updateDOM url resp s0).map (applyCallback cbScroll)

/-- Embeds `replaceHistoryStateWithScrollPosition()`: rewrite the current history
entry in place with the current location url and scroll offsets. -/
def replaceHistoryStateWithScrollPosition (s : EngineState) : EngineState :=
  { s with histCurrent :=
      { url := s.locationUrl, scroll := some { x := s.scrollX, y := s.scrollY } } }

/-- Embeds `this.XHR = new XMLHttpRequest(); ...; this.XHR.send()`: create a
fresh request, register it with the host for delivery, and remember it in
`this.XHR`. -/
def issueRequest (url : String) (isPop : Bool)
    (cbScroll : Option (Option Scroll)) (s : EngineState) : EngineState :=
  let r : Request := { id := s.nextId, url := url, isPop := isPop, cbScroll := cbScroll }
  { s with xhr := some r, inFlight := s.inFlight ++ [r], nextId := s.nextId + 1 }

/-- Embeds `makeRequest(url, isPopState, callback)`: run `onNavigate` (a user
callback with no engine-state effect), capture the scroll position into
the current history entry, then issue the XHR. -/
def makeRequest (url : String) (isPop : Bool)
    (cbScroll : Option (Option Scroll)) (s : EngineState) : EngineState :=
  issueRequest url isPop cbScroll (replaceHistoryStateWithScrollPosition s)

/-- The shared prologue of `onClick` and `onPopState`:
`if (this.XHR) { this.XHR.abort(); window.clearTimeout(this.onLoadDelayTimeout); }`.
Aborting withdraws the request from host delivery and cancels the
delayed-apply timer. -/
def abortPendingNavigation (s : EngineState) : EngineState :=
  match s.xhr with
  | none => s
  | some r =>
      { s with
          inFlight := s.inFlight.filter (fun q => q.id ≠ r.id),
          pendingTimer := none }

/-- A navigation trigger that passed the guards of its handler: a click
on an intercepted link, or a popstate event whose state object is
present. -/
inductive NavEvent where
  | click (url : String)
  | pop (url : String) (scroll : Option Scroll)

/-- Destination url of a navigation trigger. -/
def NavEvent.url : NavEvent → String
  | .click u => u
  | .pop u _ => u

/-- Whether the trigger is a history replay. -/
def NavEvent.isPop : NavEvent → Bool
  | .click _ => false
  | .pop _ _ => true

/-- The scroll-restoration callback the trigger supplies. -/
def NavEvent.cb : NavEvent → Option (Option Scroll)
  | .click _ => none
  | .pop _ sc => some sc

/-- The shared dispatch path of `onClick` and `onPopState`, past their
guards: abort any pending navigation, then `makeRequest`. Handlers only
run while bound. -/
def dispatch (ev : NavEvent) (s : EngineState) : EngineState :=
  if s.listenersBound then
    makeRequest ev.url ev.isPop ev.cb (abortPendingNavigation s)
  else s

/-- Shorthand for removing an id from host delivery: the host forgets a delivered or
aborted request. -/
def removeInFlight (id : Nat) (s : EngineState) : EngineState :=
  { s with inFlight := s.inFlight.filter (fun q => q.id ≠ id) }

/-- Embeds `this.onRequestExceptionRegex && responseText.match(...) !== null`. -/
def matchesRequestException (s : EngineState) (text : String) : Bool :=
  match s.reqException with
  | some f => f text
  | none => false

/-- The `onreadystatechange` handler at `readyState === DONE`
(`makeRequest`, `src/Mercury.js` lines 171-197). The host delivers the
completion only for a request it still holds. Status other than 200
falls back to a full navigation. Otherwise, inside `try`: on a response
matching the exception regex, fall back; then dispatch the unload event
and either schedule the delayed apply or apply immediately; a thrown
exception is caught and logged by `console.error`. -/
def handleComplete (id : Nat) (status : Nat) (resp : Response)
    (s : EngineState) : EngineState :=
  match s.inFlight.find? (fun q => q.id = id) with
  | none => s
  | some r =>
      let s1 := removeInFlight id s
      if status ≠ 200 then { s1 with loc := some r.url }
      else if matchesRequestException s1 resp.text then { s1 with loc := some r.url }
      else if s1.onLoadDelay ≠ 0 then
        { s1 with pendingTimer := some ⟨r.url, r.isPop, r.cbScroll, resp⟩ }
      else
        match modifyPageAndHistory r.url r.isPop r.cbScroll resp s1 with
        | .ok t => t
        | .error t => { t with errors := t.errors + 1 }

/-- The `ontimeout` handler: full navigation to the requested url. -/
def handleXhrTimeout (id : Nat) (s : EngineState) : EngineState :=
  match s.inFlight.find? (fun q => q.id = id) with
  | none => s
  | some r => { removeInFlight id s with loc := some r.url }

/-- The `onerror` handler: full navigation to the requested url. -/
def handleXhrError (id : Nat) (s : EngineState) : EngineState :=
  match s.inFlight.find? (fun q => q.id = id) with
  | none => s
  | some r => { removeInFlight id s with loc := some r.url }

/-- The `setTimeout` callback scheduled by the delayed-apply branch. Its
body, `this.modifyPageAndHistory(...)`, runs outside the `try` block of
`onreadystatechange`, so an exception it throws escapes to the host
event loop instead of being caught by the engine. -/
def handleTimerFire (s : EngineState) : EngineState :=
  match s.pendingTimer with
  | none => s
  | some task =>
      let s1 := { s with pendingTimer := none }
      match modifyPageAndHistory task.url task.isPop task.cbScroll task.resp s1 with
      | .ok t => t
      | .error t => { t with uncaught := t.uncaught + 1 }

/-- Embeds `destroy()`: abort any request, clear the timer, unbind listeners. -/
def destroyStep (s : EngineState) : EngineState :=
  let s1 :=
    match s.xhr with
    | none => s
    | some r => { s with inFlight := s.inFlight.filter (fun q => q.id ≠ r.id) }
  { s1 with pendingTimer := none, listenersBound := false }

/-- Embeds `commitCacheEntry(url, selector)` (`src/Mercury.js` lines 320-326).
The guard makes it a no-op when caching is disabled or either argument is
falsy; otherwise `this.cache[url]` is created when absent, and then
`document.querySelector(selector).innerHTML` is read: a selector the host
rejects throws in `querySelector`, and a selector matching no element
makes the member access throw on `null` — either way the exception
surfaces to the caller with the `cache[url]` creation already applied. -/
def commitCacheEntry (s : EngineState) (url selector : String) :
    Except EngineState EngineState :=
  if ¬s.enableCache ∨ url = "" ∨ selector = "" then .ok s
  else
    let s1 := { s with cache := cacheEnsure s.cache url }
    if selector ∈ s1.badSelectors then .error s1
    else
      match domGet s1.dom selector with
      | none => .error s1
      | some el => .ok { s1 with cache := cacheSet s1.cache url selector el.innerHTML }

/-- All events the embedded engine reacts to. -/
inductive Ev where
  | nav (e : NavEvent)
  | complete (id status : Nat) (resp : Response)
  | tmo (id : Nat)
  | err (id : Nat)
  | timer
  | destroy

/-- The transition function of the engine. -/
def step : Ev → EngineState → EngineState
  | .nav e, s => dispatch e s
  | .complete id status resp, s => handleComplete id status resp s
  | .tmo id, s => handleXhrTimeout id s
  | .err id, s => handleXhrError id s
  | .timer, s => handleTimerFire s
  | .destroy, s => destroyStep s

/-- Reflexive-transitive closure of `step` from a given state. -/
inductive ReachableFrom (s : EngineState) : EngineState → Prop
  | refl : ReachableFrom s s
  | tail {t : EngineState} (ev : Ev) : ReachableFrom s t → ReachableFrom s (step ev t)

/-- The single-flight invariant: every request the host may still deliver
is the current `this.XHR` and carries the most recently issued id; at
most one request is in flight; a pending delayed-apply timer implies a
current XHR object exists; and the current XHR id is below the fresh-id
counter. -/
def Inv (s : EngineState) : Prop :=
  (∀ q ∈ s.inFlight, s.xhr = some q ∧ q.id + 1 = s.nextId) ∧
  s.inFlight.length ≤ 1 ∧
  (s.pendingTimer.isSome → s.xhr.isSome) ∧
  (∀ q, s.xhr = some q → q.id < s.nextId)

/-! ## Structural lemmas about the transition functions -/

/-- The fields of the engine state that no DOM patch, history push or
scroll write can touch: configuration, listener binding, the XHR and
host-delivery bookkeeping, the timer, the cache, the pending full
navigation and the two diagnostic counters. -/
def FrameEq (s t : EngineState) : Prop :=
  t.updateMatrix = s.updateMatrix ∧ t.enableCache = s.enableCache ∧
  t.onLoadDelay = s.onLoadDelay ∧ t.reqException = s.reqException ∧
  t.badSelectors = s.badSelectors ∧ t.listenersBound = s.listenersBound ∧
  t.xhr = s.xhr ∧ t.inFlight = s.inFlight ∧ t.pendingTimer = s.pendingTimer ∧
  t.nextId = s.nextId ∧ t.cache = s.cache ∧ t.loc = s.loc ∧
  t.errors = s.errors ∧ t.uncaught = s.uncaught

theorem applyRule_shape (s : EngineState) (url : String) (newDoc : Dom)
    (rule : UpdateRule) :
    ∃ d, applyRule s url newDoc rule = .ok { s with dom := d } ∨
         applyRule s url newDoc rule = .error { s with dom := d } := by
  unfold applyRule
  by_cases hbad : rule.selector ∈ s.badSelectors
  · exact ⟨s.dom, Or.inr (by simp [hbad])⟩
  · simp only [if_neg hbad]
    cases hl : domGet s.dom rule.selector <;> cases hr : domGet newDoc rule.selector
    · exact ⟨s.dom, Or.inl rfl⟩
    · exact ⟨s.dom, Or.inl rfl⟩
    · exact ⟨_, Or.inl rfl⟩
    · cases hH : rule.updateHTML <;> cases hA : rule.updateAttrs <;>
        simp only [hH, hA, if_true, if_false, Bool.false_eq_true] <;>
        exact ⟨_, Or.inl rfl⟩

theorem applyRules_shape (url : String) (newDoc : Dom) (rules : List UpdateRule)
    (s : EngineState) :
    ∃ d, applyRules url newDoc rules s = .ok { s with dom := d } ∨
         applyRules url newDoc rules s = .error { s with dom := d } := by
  induction rules generalizing s with
  | nil => exact ⟨s.dom, Or.inl rfl⟩
  | cons rule rest ih =>
    obtain ⟨d, h | h⟩ := applyRule_shape s url newDoc rule
    · obtain ⟨d2, h2 | h2⟩ := ih { s with dom := d }
      · refine ⟨d2, Or.inl ?_⟩
        show (applyRule s url newDoc rule).bind (applyRules url newDoc rest) = _
        rw [h]
        exact h2
      · refine ⟨d2, Or.inr ?_⟩
        show (applyRule s url newDoc rule).bind (applyRules url newDoc rest) = _
        rw [h]
        exact h2
    · refine ⟨d, Or.inr ?_⟩
      show (applyRule s url newDoc rule).bind (applyRules url newDoc rest) = _
      rw [h]
      rfl

theorem updateDOM_shape (url : String) (resp : Response) (s : EngineState) :
    ∃ d, updateDOM url resp s = .ok { s with dom := d, scrollX := 0, scrollY := 0 } ∨
         updateDOM url resp s = .error { s with dom := d } := by
  obtain ⟨d, h | h⟩ := applyRules_shape url resp.dom s.updateMatrix s
  · exact ⟨d, Or.inl (by rw [updateDOM, h]; rfl)⟩
  · exact ⟨d, Or.inr (by rw [updateDOM, h]; rfl)⟩

theorem modifyPageAndHistory_frame (url : String) (isPop : Bool)
    (cbScroll : Option (Option Scroll)) (resp : Response) (s t : EngineState)
    (h : modifyPageAndHistory url isPop cbScroll resp s = .ok t ∨
         modifyPageAndHistory url isPop cbScroll resp s = .error t) :
    FrameEq s t := by
  unfold modifyPageAndHistory at h
  cases hp : isPop <;> simp only [hp, if_true, if_false, Bool.false_eq_true] at h
  · obtain ⟨d, hu | hu⟩ := updateDOM_shape url resp
      { s with histBack := s.histCurrent :: s.histBack,
               histCurrent := { url := url, scroll := none }, locationUrl := url }
    all_goals rw [hu] at h
    · rcases h with h | h
      · cases h
        cases hc : cbScroll with
        | none => simp [FrameEq, applyCallback]
        | some sc => cases sc <;> simp [FrameEq, applyCallback]
      · exact absurd h (by simp [Except.map])
    · rcases h with h | h
      · exact absurd h (by simp [Except.map])
      · cases h
        simp [FrameEq]
  · obtain ⟨d, hu | hu⟩ := updateDOM_shape url resp s
    all_goals rw [hu] at h
    · rcases h with h | h
      · cases h
        cases hc : cbScroll with
        | none => simp [FrameEq, applyCallback]
        | some sc => cases sc <;> simp [FrameEq, applyCallback]
      · exact absurd h (by simp [Except.map])
    · rcases h with h | h
      · exact absurd h (by simp [Except.map])
      · cases h
        simp [FrameEq]

theorem modifyPageAndHistory_hist (url : String) (isPop : Bool)
    (cbScroll : Option (Option Scroll)) (resp : Response) (s : EngineState) :
    (runExcept (modifyPageAndHistory url isPop cbScroll resp s)).histCurrent
        = (if isPop then s.histCurrent else { url := url, scroll := none }) ∧
    (runExcept (modifyPageAndHistory url isPop cbScroll resp s)).histBack
        = (if isPop then s.histBack else s.histCurrent :: s.histBack) := by
  unfold modifyPageAndHistory
  cases hp : isPop <;> simp only [if_true, if_false, Bool.false_eq_true]
  · obtain ⟨d, hu | hu⟩ := updateDOM_shape url resp
      { s with histBack := s.histCurrent :: s.histBack,
               histCurrent := { url := url, scroll := none }, locationUrl := url }
    all_goals rw [hu]
    · cases cbScroll with
      | none => simp [runExcept, Except.map, applyCallback]
      | some sc => cases sc <;> simp [runExcept, Except.map, applyCallback]
    · simp [runExcept, Except.map]
  · obtain ⟨d, hu | hu⟩ := updateDOM_shape url resp s
    all_goals rw [hu]
    · cases cbScroll with
      | none => simp [runExcept, Except.map, applyCallback]
      | some sc => cases sc <;> simp [runExcept, Except.map, applyCallback]
    · simp [runExcept, Except.map]

/-! ## The single-flight invariant -/

theorem filter_ne_nil (l : List Request) (i : Nat) (h : ∀ q ∈ l, q.id = i) :
    l.filter (fun q => q.id ≠ i) = [] := by
  induction l with
  | nil => rfl
  | cons a rest ih =>
    have ha : a.id = i := h a (by simp)
    simp only [List.filter_cons]
    rw [if_neg (by simp [ha])]
    exact ih (fun q hq => h q (by simp [hq]))

theorem inFlight_nil_of_xhr_none (s : EngineState) (hInv : Inv s)
    (hx : s.xhr = none) : s.inFlight = [] := by
  cases hf : s.inFlight with
  | nil => rfl
  | cons a l =>
    have := (hInv.1 a (by simp [hf])).1
    rw [hx] at this
    exact absurd this (by simp)

theorem timer_none_of_xhr_none (s : EngineState) (hInv : Inv s)
    (hx : s.xhr = none) : s.pendingTimer = none := by
  cases hp : s.pendingTimer with
  | none => rfl
  | some t =>
    have := hInv.2.2.1 (by simp [hp])
    rw [hx] at this
    exact absurd this (by simp)

/-- Under the invariant, an active dispatch resolves to: rewrite the
current history entry with the live scroll offset, withdraw the prior
request and timer, and issue a single fresh request. -/
theorem dispatch_eq (ev : NavEvent) (s : EngineState) (hInv : Inv s)
    (hl : s.listenersBound = true) :
    dispatch ev s = { s with
      histCurrent := { url := s.locationUrl, scroll := some { x := s.scrollX, y := s.scrollY } },
      xhr := some { id := s.nextId, url := ev.url, isPop := ev.isPop, cbScroll := ev.cb },
      inFlight := [{ id := s.nextId, url := ev.url, isPop := ev.isPop, cbScroll := ev.cb }],
      pendingTimer := none,
      nextId := s.nextId + 1 } := by
  unfold dispatch makeRequest issueRequest replaceHistoryStateWithScrollPosition
    abortPendingNavigation
  cases hx : s.xhr with
  | none =>
    have hfl := inFlight_nil_of_xhr_none s hInv hx
    have ht := timer_none_of_xhr_none s hInv hx
    simp [hl, hfl, ht]
  | some r =>
    have hall : ∀ q ∈ s.inFlight, q.id = r.id := by
      intro q hq
      have := (hInv.1 q hq).1
      rw [hx] at this
      cases this
      rfl
    have hfl : s.inFlight.filter (fun q => q.id ≠ r.id) = [] :=
      filter_ne_nil _ _ hall
    simp [hl, hfl]
    exact hall

theorem inv_dispatch (ev : NavEvent) (s : EngineState) (hInv : Inv s) :
    Inv (dispatch ev s) := by
  cases hl : s.listenersBound with
  | false => rw [dispatch, if_neg (by simp [hl])]; exact hInv
  | true =>
    rw [dispatch_eq ev s hInv hl]
    refine ⟨?_, by simp, by simp, ?_⟩
    · intro q hq
      simp only [List.mem_singleton] at hq
      subst hq
      exact ⟨rfl, rfl⟩
    · intro q hq
      simp only [Option.some.injEq] at hq
      subst hq
      simp

/-- Invariant preservation needs only the four bookkeeping fields; this
lemma transfers the invariant to any state that agrees with
`removeInFlight id s` on them (with the timer possibly re-pointed at the
current XHR request). -/
theorem inv_of_bookkeeping (s t : EngineState)
    (hin : t.inFlight.Sublist s.inFlight)
    (hx : t.xhr = s.xhr) (hn : t.nextId = s.nextId)
    (hp : t.pendingTimer = s.pendingTimer ∨ t.pendingTimer = none ∨
          (t.pendingTimer.isSome ∧ s.xhr.isSome))
    (hInv : Inv s) : Inv t := by
  obtain ⟨h1, h2, h3, h4⟩ := hInv
  refine ⟨?_, ?_, ?_, ?_⟩
  · intro q hq
    rw [hx, hn]
    exact h1 q (hin.subset hq)
  · exact le_trans hin.length_le h2
  · intro hsome
    rw [hx]
    rcases hp with hp | hp | hp
    · rw [hp] at hsome
      exact h3 hsome
    · rw [hp] at hsome
      exact absurd hsome (by simp)
    · exact hp.2
  · intro q hq
    rw [hx] at hq
    rw [hn]
    exact h4 q hq

theorem inv_handleComplete (id status : Nat) (resp : Response) (s : EngineState)
    (hInv : Inv s) : Inv (handleComplete id status resp s) := by
  unfold handleComplete
  cases hfind : s.inFlight.find? (fun q => q.id = id) with
  | none => exact hInv
  | some r =>
    have hmem : r ∈ s.inFlight := List.mem_of_find?_eq_some hfind
    have hxr : s.xhr = some r := (hInv.1 r hmem).1
    dsimp only
    by_cases h200 : status ≠ 200
    · rw [if_pos h200]
      exact inv_of_bookkeeping s _ (List.filter_sublist _) rfl rfl (Or.inl rfl) hInv
    · rw [if_neg h200]
      by_cases hre : matchesRequestException (removeInFlight id s) resp.text
      · rw [if_pos hre]
        exact inv_of_bookkeeping s _ (List.filter_sublist _) rfl rfl (Or.inl rfl) hInv
      · rw [if_neg hre]
        by_cases hdelay : (removeInFlight id s).onLoadDelay ≠ 0
        · rw [if_pos hdelay]
          exact inv_of_bookkeeping s _ (List.filter_sublist _) rfl rfl
            (Or.inr (Or.inr ⟨by simp, by simp [hxr]⟩)) hInv
        · rw [if_neg hdelay]
          cases hm : modifyPageAndHistory r.url r.isPop r.cbScroll resp (removeInFlight id s) with
          | ok t =>
            have hfr := modifyPageAndHistory_frame _ _ _ _ _ _ (Or.inl hm)
            obtain ⟨-, -, -, -, -, -, f7, f8, f9, f10, -, -, -, -⟩ := hfr
            exact inv_of_bookkeeping s t (by rw [f8]; exact List.filter_sublist _) (by rw [f7]; rfl)
              (by rw [f10]; rfl) (Or.inl (by rw [f9]; rfl)) hInv
          | error t =>
            have hfr := modifyPageAndHistory_frame _ _ _ _ _ _ (Or.inr hm)
            obtain ⟨-, -, -, -, -, -, f7, f8, f9, f10, -, -, -, -⟩ := hfr
            exact inv_of_bookkeeping s _ (by simp only [f8]; exact List.filter_sublist _) (by simp only [f7]; rfl)
              (by simp only [f10]; rfl) (Or.inl (by simp only [f9]; rfl)) hInv

theorem inv_handleXhrTimeout (id : Nat) (s : EngineState) (hInv : Inv s) :
    Inv (handleXhrTimeout id s) := by
  unfold handleXhrTimeout
  cases hfind : s.inFlight.find? (fun q => q.id = id) with
  | none => exact hInv
  | some r =>
    exact inv_of_bookkeeping s _ (List.filter_sublist _) rfl rfl (Or.inl rfl) hInv

theorem inv_handleXhrError (id : Nat) (s : EngineState) (hInv : Inv s) :
    Inv (handleXhrError id s) := by
  unfold handleXhrError
  cases hfind : s.inFlight.find? (fun q => q.id = id) with
  | none => exact hInv
  | some r =>
    exact inv_of_bookkeeping s _ (List.filter_sublist _) rfl rfl (Or.inl rfl) hInv

theorem inv_handleTimerFire (s : EngineState) (hInv : Inv s) :
    Inv (handleTimerFire s) := by
  unfold handleTimerFire
  cases hp : s.pendingTimer with
  | none => exact hInv
  | some task =>
    dsimp only
    cases hm : modifyPageAndHistory task.url task.isPop task.cbScroll task.resp
        { s with pendingTimer := none } with
    | ok t =>
      have hfr := modifyPageAndHistory_frame _ _ _ _ _ _ (Or.inl hm)
      obtain ⟨-, -, -, -, -, -, f7, f8, f9, f10, -, -, -, -⟩ := hfr
      have e8 : t.inFlight = s.inFlight := f8.trans rfl
      refine inv_of_bookkeeping s t ?_ (f7.trans rfl) (f10.trans rfl)
        (Or.inr (Or.inl (f9.trans rfl))) hInv
      rw [e8]
    | error t =>
      have hfr := modifyPageAndHistory_frame _ _ _ _ _ _ (Or.inr hm)
      obtain ⟨-, -, -, -, -, -, f7, f8, f9, f10, -, -, -, -⟩ := hfr
      have e8 : t.inFlight = s.inFlight := f8.trans rfl
      refine inv_of_bookkeeping s _ ?_ (f7.trans rfl) (f10.trans rfl)
        (Or.inr (Or.inl (f9.trans rfl))) hInv
      simp only [e8]
      exact List.Sublist.refl _

theorem inv_destroyStep (s : EngineState) (hInv : Inv s) :
    Inv (destroyStep s) := by
  unfold destroyStep
  cases hx : s.xhr with
  | none =>
    exact inv_of_bookkeeping s _ (List.Sublist.refl _) rfl rfl (Or.inr (Or.inl rfl)) hInv
  | some r =>
    exact inv_of_bookkeeping s _ (List.filter_sublist _) hx.symm rfl (Or.inr (Or.inl rfl)) hInv

theorem inv_step (ev : Ev) (s : EngineState) (hInv : Inv s) : Inv (step ev s) := by
  cases ev with
  | nav e => exact inv_dispatch e s hInv
  | complete id status resp => exact inv_handleComplete id status resp s hInv
  | tmo id => exact inv_handleXhrTimeout id s hInv
  | err id => exact inv_handleXhrError id s hInv
  | timer => exact inv_handleTimerFire s hInv
  | destroy => exact inv_destroyStep s hInv

theorem handleComplete_nextId (id status : Nat) (resp : Response) (s : EngineState) :
    (handleComplete id status resp s).nextId = s.nextId := by
  unfold handleComplete
  cases hfind : s.inFlight.find? (fun q => q.id = id) with
  | none => rfl
  | some r =>
    dsimp only
    by_cases h200 : status ≠ 200
    · rw [if_pos h200]
      exact rfl
    · rw [if_neg h200]
      by_cases hre : matchesRequestException (removeInFlight id s) resp.text
      · rw [if_pos hre]
        exact rfl
      · rw [if_neg hre]
        by_cases hdelay : (removeInFlight id s).onLoadDelay ≠ 0
        · rw [if_pos hdelay]
          exact rfl
        · rw [if_neg hdelay]
          cases hm : modifyPageAndHistory r.url r.isPop r.cbScroll resp (removeInFlight id s) with
          | ok t =>
            have f10 := (modifyPageAndHistory_frame _ _ _ _ _ _ (Or.inl hm)).2.2.2.2.2.2.2.2.2.1
            exact f10.trans rfl
          | error t =>
            have f10 := (modifyPageAndHistory_frame _ _ _ _ _ _ (Or.inr hm)).2.2.2.2.2.2.2.2.2.1
            exact f10.trans rfl

theorem handleTimerFire_nextId (s : EngineState) :
    (handleTimerFire s).nextId = s.nextId := by
  unfold handleTimerFire
  cases hp : s.pendingTimer with
  | none => rfl
  | some task =>
    dsimp only
    cases hm : modifyPageAndHistory task.url task.isPop task.cbScroll task.resp
        { s with pendingTimer := none } with
    | ok t =>
      have f10 := (modifyPageAndHistory_frame _ _ _ _ _ _ (Or.inl hm)).2.2.2.2.2.2.2.2.2.1
      exact f10.trans rfl
    | error t =>
      have f10 := (modifyPageAndHistory_frame _ _ _ _ _ _ (Or.inr hm)).2.2.2.2.2.2.2.2.2.1
      exact f10.trans rfl

theorem nextId_le_step (ev : Ev) (s : EngineState) : s.nextId ≤ (step ev s).nextId := by
  cases ev with
  | nav e =>
    show s.nextId ≤ (dispatch e s).nextId
    unfold dispatch makeRequest issueRequest replaceHistoryStateWithScrollPosition
      abortPendingNavigation
    cases hl : s.listenersBound
    · simp
    · cases hx : s.xhr <;> simp
  | complete id status resp => exact le_of_eq (handleComplete_nextId id status resp s).symm
  | tmo id =>
    show s.nextId ≤ (handleXhrTimeout id s).nextId
    unfold handleXhrTimeout
    cases hfind : s.inFlight.find? (fun q => q.id = id) <;> exact le_refl _
  | err id =>
    show s.nextId ≤ (handleXhrError id s).nextId
    unfold handleXhrError
    cases hfind : s.inFlight.find? (fun q => q.id = id) <;> exact le_refl _
  | timer => exact le_of_eq (handleTimerFire_nextId s).symm
  | destroy =>
    show s.nextId ≤ (destroyStep s).nextId
    unfold destroyStep
    cases hx : s.xhr <;> exact le_refl _

theorem reachableFrom_nextId_le (s t : EngineState) (h : ReachableFrom s t) :
    s.nextId ≤ t.nextId := by
  induction h with
  | refl => exact le_refl _
  | tail ev _ ih => exact le_trans ih (nextId_le_step ev _)

theorem reachableFrom_inv (s t : EngineState) (hInv : Inv s) (h : ReachableFrom s t) :
    Inv t := by
  induction h with
  | refl => exact hInv
  | tail ev _ ih => exact inv_step ev _ ih

/-- A completion event for an id the host no longer holds is a no-op: the
handler of the aborted request never fires. -/
theorem handleComplete_stale (id status : Nat) (resp : Response) (s : EngineState)
    (hnone : s.inFlight.find? (fun q => q.id = id) = none) :
    handleComplete id status resp s = s := by
  unfold handleComplete
  rw [hnone]

theorem handleXhrTimeout_stale (id : Nat) (s : EngineState)
    (hnone : s.inFlight.find? (fun q => q.id = id) = none) :
    handleXhrTimeout id s = s := by
  unfold handleXhrTimeout
  rw [hnone]

theorem handleXhrError_stale (id : Nat) (s : EngineState)
    (hnone : s.inFlight.find? (fun q => q.id = id) = none) :
    handleXhrError id s = s := by
  unfold handleXhrError
  rw [hnone]

theorem find_id_none (l : List Request) (i : Nat) (h : ∀ q ∈ l, q.id ≠ i) :
    l.find? (fun q => q.id = i) = none :=
  List.find?_eq_none.mpr (fun q hq => by simpa using h q hq)

/-! ## Claim theorems -/

/-- A plain engine state used to instantiate theorems at concrete inputs. -/
def baseState : EngineState := {
  updateMatrix := [],
  enableCache := false,
  onLoadDelay := 0,
  reqException := none,
  badSelectors := [],
  listenersBound := true,
  xhr := none,
  inFlight := [],
  pendingTimer := none,
  nextId := 0,
  dom := [],
  cache := [],
  histCurrent := { url := "/", scroll := none },
  histBack := [],
  locationUrl := "/",
  scrollX := 0,
  scrollY := 0,
  loc := none,
  errors := 0,
  uncaught := 0 }

/-- The request pending in the state used to witness claim C1. -/
def navReq : Request := { id := 0, url := "/a", isPop := false, cbScroll := none }

/-- A state with one in-flight request, for the claim C1 witness. -/
def navExample : EngineState :=
  { baseState with xhr := some navReq, inFlight := [navReq], nextId := 1 }

theorem navExample_inv : Inv navExample := by
  refine ⟨?_, ?_, ?_, ?_⟩
  · intro q hq
    simp only [navExample, baseState, navReq, List.mem_singleton] at hq
    subst hq
    exact ⟨rfl, rfl⟩
  · decide
  · intro h
    exact absurd h (by decide)
  · intro q hq
    have h := Option.some.inj hq
    rw [← h]
    decide

/-- C1: starting a new navigation (click or popstate) aborts the prior
pending request and cancels the pending delayed-apply timer, so at most
one request is ever in flight, and the superseded request never fires
again: its completion, timeout and error handlers are no-ops in every
state reachable after the new navigation begins, so a stale response
never mutates the document. -/
theorem claim1_single_flight (s : EngineState) (r : Request) (ev : NavEvent)
    (t : EngineState) (hInv : Inv s) (hx : s.xhr = some r)
    (hl : s.listenersBound = true)
    (ht : ReachableFrom (step (Ev.nav ev) s) t) :
    s.inFlight.length ≤ 1 ∧
    (step (Ev.nav ev) s).pendingTimer = none ∧
    (∀ q ∈ (step (Ev.nav ev) s).inFlight, q.id ≠ r.id) ∧
    t.inFlight.length ≤ 1 ∧
    (∀ status resp, handleComplete r.id status resp t = t) ∧
    handleXhrTimeout r.id t = t ∧
    handleXhrError r.id t = t := by
  have hrid : r.id < s.nextId := hInv.2.2.2 r hx
  have hde : step (Ev.nav ev) s = dispatch ev s := rfl
  have hdq := dispatch_eq ev s hInv hl
  have hInv1 : Inv (step (Ev.nav ev) s) := inv_step _ s hInv
  have hInvT : Inv t := reachableFrom_inv _ t hInv1 ht
  have hnid : (step (Ev.nav ev) s).nextId = s.nextId + 1 := by
    rw [hde, hdq]
  have hnle : s.nextId + 1 ≤ t.nextId := by
    have := reachableFrom_nextId_le _ t ht
    rw [hnid] at this
    exact this
  have hstale : ∀ q ∈ t.inFlight, q.id ≠ r.id := by
    intro q hq
    have h2 := (hInvT.1 q hq).2
    omega
  have hfind : t.inFlight.find? (fun q => q.id = r.id) = none :=
    find_id_none _ _ hstale
  refine ⟨hInv.2.1, ?_, ?_, hInvT.2.1, ?_, ?_, ?_⟩
  · rw [hde, hdq]
  · intro q hq
    rw [hde, hdq] at hq
    simp only [List.mem_singleton] at hq
    subst hq
    simp only
    omega
  · intro status resp
    exact handleComplete_stale r.id status resp t hfind
  · exact handleXhrTimeout_stale r.id t hfind
  · exact handleXhrError_stale r.id t hfind

theorem claim1_single_flight_witness :
    navExample.inFlight.length ≤ 1 ∧
    (step (Ev.nav (NavEvent.click "/b")) navExample).pendingTimer = none ∧
    (∀ q ∈ (step (Ev.nav (NavEvent.click "/b")) navExample).inFlight, q.id ≠ navReq.id) ∧
    (step (Ev.nav (NavEvent.click "/b")) navExample).inFlight.length ≤ 1 ∧
    (∀ status resp, handleComplete navReq.id status resp
        (step (Ev.nav (NavEvent.click "/b")) navExample)
        = step (Ev.nav (NavEvent.click "/b")) navExample) ∧
    handleXhrTimeout navReq.id (step (Ev.nav (NavEvent.click "/b")) navExample)
      = step (Ev.nav (NavEvent.click "/b")) navExample ∧
    handleXhrError navReq.id (step (Ev.nav (NavEvent.click "/b")) navExample)
      = step (Ev.nav (NavEvent.click "/b")) navExample :=
  claim1_single_flight navExample navReq (NavEvent.click "/b")
    (step (Ev.nav (NavEvent.click "/b")) navExample)
    navExample_inv rfl rfl ReachableFrom.refl

/-- C2: when a request completes with an HTTP status other than 200, or
times out, or fails with a network error, the engine sets
`window.location` to the requested url (full top-level navigation) and
performs no DOM mutation and no history change for that navigation. -/
theorem claim2_failure_full_navigation (s : EngineState) (r : Request)
    (status : Nat) (resp : Response)
    (hfind : s.inFlight.find? (fun q => q.id = r.id) = some r)
    (hst : status ≠ 200) :
    (handleComplete r.id status resp s).loc = some r.url ∧
    (handleComplete r.id status resp s).dom = s.dom ∧
    (handleComplete r.id status resp s).histCurrent = s.histCurrent ∧
    (handleComplete r.id status resp s).histBack = s.histBack ∧
    (handleXhrTimeout r.id s).loc = some r.url ∧
    (handleXhrTimeout r.id s).dom = s.dom ∧
    (handleXhrTimeout r.id s).histCurrent = s.histCurrent ∧
    (handleXhrTimeout r.id s).histBack = s.histBack ∧
    (handleXhrError r.id s).loc = some r.url ∧
    (handleXhrError r.id s).dom = s.dom ∧
    (handleXhrError r.id s).histCurrent = s.histCurrent ∧
    (handleXhrError r.id s).histBack = s.histBack := by
  unfold handleComplete handleXhrTimeout handleXhrError
  rw [hfind]
  dsimp only
  rw [if_pos hst]
  exact ⟨rfl, rfl, rfl, rfl, rfl, rfl, rfl, rfl, rfl, rfl, rfl, rfl⟩

theorem claim2_failure_full_navigation_witness :
    (handleComplete navReq.id 404 { text := "", dom := [] } navExample).loc = some navReq.url ∧
    (handleComplete navReq.id 404 { text := "", dom := [] } navExample).dom = navExample.dom ∧
    (handleComplete navReq.id 404 { text := "", dom := [] } navExample).histCurrent
      = navExample.histCurrent ∧
    (handleComplete navReq.id 404 { text := "", dom := [] } navExample).histBack
      = navExample.histBack ∧
    (handleXhrTimeout navReq.id navExample).loc = some navReq.url ∧
    (handleXhrTimeout navReq.id navExample).dom = navExample.dom ∧
    (handleXhrTimeout navReq.id navExample).histCurrent = navExample.histCurrent ∧
    (handleXhrTimeout navReq.id navExample).histBack = navExample.histBack ∧
    (handleXhrError navReq.id navExample).loc = some navReq.url ∧
    (handleXhrError navReq.id navExample).dom = navExample.dom ∧
    (handleXhrError navReq.id navExample).histCurrent = navExample.histCurrent ∧
    (handleXhrError navReq.id navExample).histBack = navExample.histBack :=
  claim2_failure_full_navigation navExample navReq 404 { text := "", dom := [] }
    (by rfl) (by decide)

/-- C3: a navigation that reaches the apply step pushes exactly one
history entry, keyed by the destination url and with no scroll, when it
is not a history replay, and leaves the history stack unchanged when it
is a replay. -/
theorem claim3_push_exactly_one (url : String) (isPop : Bool)
    (cbScroll : Option (Option Scroll)) (resp : Response) (s : EngineState) :
    histDepth (runExcept (modifyPageAndHistory url isPop cbScroll resp s))
      = histDepth s + (if isPop then 0 else 1) ∧
    (runExcept (modifyPageAndHistory url isPop cbScroll resp s)).histCurrent
      = (if isPop then s.histCurrent else { url := url, scroll := none }) ∧
    (runExcept (modifyPageAndHistory url isPop cbScroll resp s)).histBack
      = (if isPop then s.histBack else s.histCurrent :: s.histBack) := by
  obtain ⟨h1, h2⟩ := modifyPageAndHistory_hist url isPop cbScroll resp s
  refine ⟨?_, h1, h2⟩
  rw [histDepth, histDepth, h2]
  cases isPop <;> simp

/-- C4: before the XHR is issued, synchronously in the dispatch path, the
current history entry is rewritten in place to `{ url, scroll }` with the
scroll offset of that moment: the dispatch path is definitionally
issue-after-rewrite, the rewrite stores the live location and scroll, and
issuing the request touches neither history component. -/
theorem claim4_scroll_captured_before_request (ev : NavEvent) (s : EngineState)
    (hl : s.listenersBound = true) :
    dispatch ev s
      = issueRequest ev.url ev.isPop ev.cb
          (replaceHistoryStateWithScrollPosition (abortPendingNavigation s)) ∧
    (replaceHistoryStateWithScrollPosition (abortPendingNavigation s)).histCurrent
      = { url := s.locationUrl, scroll := some { x := s.scrollX, y := s.scrollY } } ∧
    (∀ u p c t, (issueRequest u p c t).histCurrent = t.histCurrent ∧
        (issueRequest u p c t).histBack = t.histBack ∧
        (issueRequest u p c t).inFlight
          = t.inFlight ++ [{ id := t.nextId, url := u, isPop := p, cbScroll := c }]) := by
  refine ⟨?_, ?_, fun u p c t => ⟨rfl, rfl, rfl⟩⟩
  · unfold dispatch
    rw [if_pos hl]
    rfl
  · unfold replaceHistoryStateWithScrollPosition abortPendingNavigation
    cases hx : s.xhr <;> rfl

theorem claim4_scroll_captured_before_request_witness :
    dispatch (NavEvent.click "/b") navExample
      = issueRequest (NavEvent.click "/b").url (NavEvent.click "/b").isPop
          (NavEvent.click "/b").cb
          (replaceHistoryStateWithScrollPosition (abortPendingNavigation navExample)) ∧
    (replaceHistoryStateWithScrollPosition (abortPendingNavigation navExample)).histCurrent
      = { url := navExample.locationUrl,
          scroll := some { x := navExample.scrollX, y := navExample.scrollY } } ∧
    (∀ u p c t, (issueRequest u p c t).histCurrent = t.histCurrent ∧
        (issueRequest u p c t).histBack = t.histBack ∧
        (issueRequest u p c t).inFlight
          = t.inFlight ++ [{ id := t.nextId, url := u, isPop := p, cbScroll := c }]) :=
  claim4_scroll_captured_before_request (NavEvent.click "/b") navExample rfl

/-! ## Attribute replacement -/

theorem removeAll_attrs (names : List String) (l : List Attr)
    (h : ∀ p ∈ l, p.1 ∈ names) :
    names.foldl removeAttribute l = [] := by
  induction names generalizing l with
  | nil =>
    cases l with
    | nil => rfl
    | cons a t => exact absurd (h a (by simp)) (by simp)
  | cons n rest ih =>
    show rest.foldl removeAttribute (removeAttribute l n) = []
    apply ih
    intro p hp
    simp only [removeAttribute, List.mem_filter, decide_eq_true_eq] at hp
    have hmem := h p hp.1
    simp only [List.mem_cons] at hmem
    rcases hmem with h1 | h1
    · exact absurd h1 hp.2
    · exact h1

theorem setAll_attrs (ref : List Attr) (acc : List Attr)
    (hnd : (ref.map Prod.fst).Nodup)
    (hdis : ∀ p ∈ ref, ∀ q ∈ acc, q.1 ≠ p.1) :
    ref.foldl (fun a p => setAttribute a p.1 p.2) acc = acc ++ ref := by
  induction ref generalizing acc with
  | nil => simp
  | cons p rest ih =>
    show rest.foldl (fun a p => setAttribute a p.1 p.2) (setAttribute acc p.1 p.2)
        = acc ++ p :: rest
    have hnotin : ¬ acc.any (fun q => q.1 = p.1) = true := by
      simp only [List.any_eq_true, decide_eq_true_eq, not_exists]
      intro q
      rw [not_and]
      intro hq
      exact hdis p (by simp) q hq
    rw [setAttribute, if_neg hnotin]
    rw [List.map_cons] at hnd
    obtain ⟨hhead, htail⟩ := List.nodup_cons.mp hnd
    have hstep := ih (acc ++ [(p.1, p.2)]) htail ?_
    · rw [hstep, List.append_assoc]
      rfl
    · intro p2 hp2 q hq
      simp only [List.mem_append, List.mem_singleton] at hq
      rcases hq with hq | hq
      · exact hdis p2 (by simp [hp2]) q hq
      · subst hq
        intro hbad
        have hbad2 : p.1 = p2.1 := hbad
        exact hhead (by rw [hbad2]; exact List.mem_map_of_mem Prod.fst hp2)

/-- After `replaceAttributes`, the attribute list of the live element is
exactly that of the reference element (reference attribute names are
distinct, as the host parser guarantees). -/
theorem replaceAttributes_total (el ref : Element)
    (hnd : (ref.attrs.map Prod.fst).Nodup) :
    (replaceAttributes el ref).attrs = ref.attrs := by
  unfold replaceAttributes
  dsimp only
  rw [removeAll_attrs (el.attrs.map (fun p => p.1)) el.attrs
    (fun p hp => List.mem_map_of_mem _ hp)]
  have h := setAll_attrs ref.attrs [] hnd (by simp)
  simpa using h

theorem domGet_domModify_self (d : Dom) (sel : String) (f : Element → Element) :
    domGet (domModify d sel f) sel = (domGet d sel).map f := by
  induction d with
  | nil => rfl
  | cons p rest ih =>
    by_cases h : p.1 = sel
    · unfold domModify domGet
      rw [if_pos h]
      rw [List.find?_cons_of_pos _ (by simpa using h),
        List.find?_cons_of_pos _ (by simpa using h)]
      rfl
    · unfold domModify domGet
      rw [if_neg h]
      rw [List.find?_cons_of_neg _ (by simpa using h),
        List.find?_cons_of_neg _ (by simpa using h)]
      exact ih

/-- C7: a patch step whose rule has `updateAttrs` set replaces the full
attribute set of the live element with exactly the attribute set of the
reference element, independently of the `updateHTML` flag (and hence of
any cached inner content), which is quantified over. -/
theorem claim7_attr_replacement_total (s : EngineState) (url : String)
    (newDoc : Dom) (sel : String) (uH : Bool) (live ref : Element)
    (hbad : sel ∉ s.badSelectors)
    (hlive : domGet s.dom sel = some live)
    (href : domGet newDoc sel = some ref)
    (hnd : (ref.attrs.map Prod.fst).Nodup) :
    (replaceAttributes live ref).attrs = ref.attrs ∧
    ∃ t, applyRule s url newDoc { selector := sel, updateHTML := uH, updateAttrs := true }
          = .ok t ∧
      ∃ el2, domGet t.dom sel = some el2 ∧ el2.attrs = ref.attrs := by
  refine ⟨replaceAttributes_total live ref hnd, ?_⟩
  unfold applyRule
  dsimp only
  rw [if_neg hbad, hlive, href]
  dsimp only
  cases uH with
  | false =>
    refine ⟨_, rfl, ?_⟩
    rw [if_neg Bool.false_ne_true, if_pos rfl]
    dsimp only
    rw [domGet_domModify_self, hlive]
    exact ⟨_, rfl, replaceAttributes_total live ref hnd⟩
  | true =>
    refine ⟨_, rfl, ?_⟩
    rw [if_pos rfl, if_pos rfl]
    dsimp only
    rw [domGet_domModify_self, domGet_domModify_self, hlive]
    exact ⟨_, rfl, replaceAttributes_total _ ref hnd⟩

theorem claim7_attr_replacement_total_witness :
    (replaceAttributes { attrs := [("id", "old"), ("x", "1")], innerHTML := "c" }
        { attrs := [("id", "new")], innerHTML := "z" }).attrs = [("id", "new")] ∧
    ∃ t, applyRule
        { baseState with dom := [("div", { attrs := [("id", "old"), ("x", "1")], innerHTML := "c" })] }
        "/u" [("div", { attrs := [("id", "new")], innerHTML := "z" })]
        { selector := "div", updateHTML := true, updateAttrs := true } = .ok t ∧
      ∃ el2, domGet t.dom "div" = some el2 ∧ el2.attrs = [("id", "new")] :=
  claim7_attr_replacement_total
    { baseState with dom := [("div", { attrs := [("id", "old"), ("x", "1")], innerHTML := "c" })] }
    "/u" [("div", { attrs := [("id", "new")], innerHTML := "z" })] "div" true
    { attrs := [("id", "old"), ("x", "1")], innerHTML := "c" }
    { attrs := [("id", "new")], innerHTML := "z" }
    (by decide) (by rfl) (by rfl) (by decide)

/-- C10: with caching enabled, `commitCacheEntry` is a silent no-op when
the url or the selector is the empty (falsy) string, but when both are
non-empty and the live document holds no element for the selector, the
member access on the `null` query result throws (with the `cache[url]`
object creation already performed). -/
theorem claim10_commit_requires_match (s : EngineState) (url sel : String) :
    ((s.enableCache = false ∨ url = "" ∨ sel = "") →
      commitCacheEntry s url sel = .ok s) ∧
    (s.enableCache = true → url ≠ "" → sel ≠ "" → sel ∉ s.badSelectors →
      domGet s.dom sel = none →
      commitCacheEntry s url sel = .error { s with cache := cacheEnsure s.cache url }) := by
  constructor
  · intro h
    unfold commitCacheEntry
    rw [if_pos ?_]
    rcases h with h | h | h
    · exact Or.inl (by simp [h])
    · exact Or.inr (Or.inl h)
    · exact Or.inr (Or.inr h)
  · intro hc hu hs hb hd
    unfold commitCacheEntry
    rw [if_neg (by simp [hc, hu, hs])]
    dsimp only
    rw [if_neg ?_, hd]
    simpa using hb

theorem claim10_commit_requires_match_witness :
    commitCacheEntry { baseState with enableCache := true } "/u" ".missing"
      = .error { { baseState with enableCache := true } with
          cache := cacheEnsure ({ baseState with enableCache := true } : EngineState).cache "/u" } ∧
    commitCacheEntry { baseState with enableCache := true } "" ".missing"
      = .ok { baseState with enableCache := true } :=
  ⟨(claim10_commit_requires_match { baseState with enableCache := true } "/u" ".missing").2
      rfl (by decide) (by decide) (by decide) rfl,
   (claim10_commit_requires_match { baseState with enableCache := true } "" ".missing").1
      (Or.inr (Or.inl rfl))⟩

/-! ## Cache round-trip -/

theorem inner_set_get (l : List (String × String)) (sel v : String) :
    (((if l.any (fun q => q.1 = sel) then
          l.map (fun q => if q.1 = sel then (sel, v) else q)
        else l ++ [(sel, v)]).find? (fun q => q.1 = sel)).map (fun q => q.2))
      = some v := by
  by_cases h : l.any (fun q => q.1 = sel)
  · rw [if_pos h]
    induction l with
    | nil => simp at h
    | cons q rest ih =>
      by_cases hq : q.1 = sel
      · rw [List.map_cons, if_pos hq,
          List.find?_cons_of_pos _ (by simp)]
        rfl
      · rw [List.map_cons, if_neg hq,
          List.find?_cons_of_neg _ (by simpa using hq)]
        exact ih (by simpa [hq] using h)
  · rw [if_neg h]
    induction l with
    | nil => simp [List.find?]
    | cons q rest ih =>
      have hq : ¬ q.1 = sel := by
        intro hbad
        exact h (by simp [hbad])
      rw [List.cons_append, List.find?_cons_of_neg _ (by simpa using hq)]
      exact ih (by
        intro hbad
        simp only [List.any_cons, Bool.or_eq_true] at h
        exact h (Or.inr hbad))

theorem cacheGet_cacheSet (c : Cache) (url sel v : String)
    (h : (c.find? (fun p => p.1 = url)).isSome = true) :
    cacheGet (cacheSet c url sel v) url sel = some v := by
  induction c with
  | nil => simp [List.find?] at h
  | cons e rest ih =>
    by_cases he : e.1 = url
    · unfold cacheSet cacheGet
      rw [List.map_cons, if_pos he, List.find?_cons_of_pos _ (by simpa using he)]
      exact inner_set_get e.2 sel v
    · unfold cacheSet cacheGet
      rw [List.map_cons, if_neg he, List.find?_cons_of_neg _ (by simpa using he)]
      have h2 : (rest.find? (fun p => p.1 = url)).isSome = true := by
        rw [List.find?_cons_of_neg _ (by simpa using he)] at h
        exact h
      exact ih h2

theorem cacheEnsure_hasEntry (c : Cache) (url : String) :
    ((cacheEnsure c url).find? (fun p => p.1 = url)).isSome = true := by
  unfold cacheEnsure
  by_cases h : (c.find? (fun p => p.1 = url)).isSome = true
  · rw [if_pos h]
    exact h
  · rw [if_neg h]
    induction c with
    | nil => simp [List.find?]
    | cons e rest ih =>
      by_cases he : e.1 = url
      · exact absurd (by rw [List.find?_cons_of_pos _ (by simpa using he)]; rfl) h
      · rw [List.cons_append, List.find?_cons_of_neg _ (by simpa using he)]
        refine ih ?_
        intro hbad
        exact h (by rw [List.find?_cons_of_neg _ (by simpa using he)]; exact hbad)

/-- The state used to exhibit the empty-markup cache failure of C5. -/
def c5State : EngineState :=
  { baseState with
      enableCache := true,
      updateMatrix := [{ selector := ".feed", updateHTML := true, updateAttrs := false }],
      dom := [(".feed", { attrs := [], innerHTML := "" })] }

/-- A response whose markup for `.feed` is `X`. -/
def c5Resp : Response :=
  { text := "x", dom := [(".feed", { attrs := [], innerHTML := "X" })] }

/-- The state after committing the (empty) live markup of `.feed`. -/
def c5Committed : EngineState := runExcept (commitCacheEntry c5State "/u" ".feed")

/-- The state after patching with the response. -/
def c5Patched : EngineState := runExcept (updateDOM "/u" c5Resp c5Committed)

/-- C5 counterexample: with caching enabled, `commitCacheEntry` captures
the live markup M = the empty string for `(/u, .feed)`; the subsequent
patch for that pair with `updateHTML` set applies the response markup
`X`, not M — the truthiness test `this.cache[url][selector]` discards an
empty cached string, so the round-trip fails for M empty. -/
theorem claim5_cache_roundtrip_counterexample :
    (commitCacheEntry c5State "/u" ".feed").isOk = true ∧
    cacheGet c5Committed.cache "/u" ".feed" = some "" ∧
    (updateDOM "/u" c5Resp c5Committed).isOk = true ∧
    (domGet c5Patched.dom ".feed").map Element.innerHTML = some "X" ∧
    (domGet c5Patched.dom ".feed").map Element.innerHTML ≠ some "" := by
  refine ⟨by decide, by decide, by decide, by decide, by decide⟩

/-- C5 (amended): with caching enabled, after `commitCacheEntry(url, sel)`
captures the live markup M for a matching element, every subsequent patch
step for that exact `(url, sel)` with `updateHTML` set applies M to the
live element regardless of the response content for that selector —
provided M is not the empty string (an empty cached string is falsy in
the `this.cache[url] && this.cache[url][selector]` test and is ignored). -/
theorem claim5_cache_roundtrip_amended (s : EngineState) (url sel : String)
    (live : Element) (uA : Bool)
    (hc : s.enableCache = true) (hu : url ≠ "") (hs : sel ≠ "")
    (hbad : sel ∉ s.badSelectors)
    (hlive : domGet s.dom sel = some live)
    (hM : live.innerHTML ≠ "") :
    ∃ s1, commitCacheEntry s url sel = .ok s1 ∧
      cacheGet s1.cache url sel = some live.innerHTML ∧
      (∀ s2 : EngineState, s2.enableCache = true →
        cacheGet s2.cache url sel = some live.innerHTML →
        sel ∉ s2.badSelectors →
        ∀ live2, domGet s2.dom sel = some live2 →
        ∀ newDoc ref, domGet newDoc sel = some ref →
        ∃ t, applyRule s2 url newDoc
              { selector := sel, updateHTML := true, updateAttrs := uA } = .ok t ∧
          ∃ el2, domGet t.dom sel = some el2 ∧ el2.innerHTML = live.innerHTML) := by
  have hcommit : commitCacheEntry s url sel
      = .ok { s with cache := cacheSet (cacheEnsure s.cache url) url sel live.innerHTML } := by
    unfold commitCacheEntry
    rw [if_neg (by simp [hc, hu, hs]), if_neg (by simpa using hbad), hlive]
  refine ⟨_, hcommit, ?_, ?_⟩
  · exact cacheGet_cacheSet _ url sel live.innerHTML (cacheEnsure_hasEntry s.cache url)
  · intro s2 hc2 hcg2 hbad2 live2 hlive2 newDoc ref href
    unfold applyRule
    dsimp only
    rw [if_neg hbad2, hlive2, href]
    dsimp only
    rw [if_pos rfl]
    have hcv : cachedValue s2 url sel = some live.innerHTML := by
      unfold cachedValue
      rw [if_pos hc2, hcg2]
      dsimp only
      rw [if_neg hM]
    cases uA with
    | false =>
      refine ⟨_, rfl, ?_⟩
      rw [if_neg Bool.false_ne_true]
      dsimp only
      rw [domGet_domModify_self, hlive2]
      exact ⟨_, rfl, by rw [hcv]; rfl⟩
    | true =>
      refine ⟨_, rfl, ?_⟩
      rw [if_pos rfl]
      dsimp only
      rw [domGet_domModify_self, domGet_domModify_self, hlive2]
      refine ⟨_, rfl, ?_⟩
      show (replaceAttributes _ ref).innerHTML = live.innerHTML
      unfold replaceAttributes
      dsimp only
      rw [hcv]
      rfl

/-- The live element whose markup is captured in the C5 amended witness. -/
def c5wLive : Element := { attrs := [], innerHTML := "M" }

/-- The engine state of the C5 amended witness. -/
def c5wState : EngineState :=
  { baseState with enableCache := true, dom := [(".feed", c5wLive)] }

theorem claim5_cache_roundtrip_amended_witness :
    ∃ s1, commitCacheEntry c5wState "/u" ".feed" = .ok s1 ∧
      cacheGet s1.cache "/u" ".feed" = some c5wLive.innerHTML ∧
      (∀ s2 : EngineState, s2.enableCache = true →
        cacheGet s2.cache "/u" ".feed" = some c5wLive.innerHTML →
        ".feed" ∉ s2.badSelectors →
        ∀ live2, domGet s2.dom ".feed" = some live2 →
        ∀ newDoc ref, domGet newDoc ".feed" = some ref →
        ∃ t, applyRule s2 "/u" newDoc
              { selector := ".feed", updateHTML := true, updateAttrs := false } = .ok t ∧
          ∃ el2, domGet t.dom ".feed" = some el2 ∧
            el2.innerHTML = c5wLive.innerHTML) :=
  claim5_cache_roundtrip_amended c5wState "/u" ".feed" c5wLive false
    rfl (by decide) (by decide) (by decide) (by rfl) (by decide)

/-! ## Exception handling on the success path -/

/-- A response used for the C6 states. -/
def c6Resp : Response := { text := "", dom := [] }

/-- An engine configured with a post-load delay and an update matrix whose
selector the host query capability rejects, with one request in flight. -/
def c6State : EngineState :=
  { baseState with
      onLoadDelay := 100,
      updateMatrix := [{ selector := "!!", updateHTML := true, updateAttrs := false }],
      badSelectors := ["!!"],
      xhr := some navReq,
      inFlight := [navReq] }

/-- The state after the 200 completion schedules the delayed apply. -/
def c6AfterComplete : EngineState := handleComplete 0 200 c6Resp c6State

/-- The state after the delayed apply fires and throws. -/
def c6AfterTimer : EngineState := handleTimerFire c6AfterComplete

/-- C6 counterexample: with a post-load delay configured, an exception
raised while handling a successful 200 response (here `querySelector`
throwing on the invalid selector of the update matrix during the apply
step) is thrown inside the `setTimeout` callback, which runs outside the
`try` block of `onreadystatechange`: `console.error` is never called
(the logged-error count stays 0) and the exception escapes to the host
event loop — so it is not caught at the engine boundary, contradicting
the claim for this navigation. -/
theorem claim6_exception_caught_counterexample :
    c6AfterComplete.pendingTimer.isSome = true ∧
    c6AfterComplete.errors = 0 ∧
    c6AfterTimer.errors = 0 ∧
    c6AfterTimer.uncaught = 1 ∧
    c6AfterTimer.loc = none := by
  refine ⟨by decide, by decide, by decide, by decide, by decide⟩

/-- C6 (amended): when no post-load delay is configured, an unexpected
exception raised while handling a successful (status-200) response is
caught by the `try`/`catch` boundary of `onreadystatechange` and logged
by `console.error`; the engine survives (listeners stay bound, no timer
left behind) and no fallback full navigation is triggered — the
navigation silently fails to complete. When a post-load delay is
configured, the exception thrown by the delayed apply instead escapes
uncaught to the host event loop (see the counterexample); in that case
too, no fallback navigation is triggered and the engine survives. -/
theorem claim6_exception_caught_amended (s : EngineState) (r : Request)
    (resp : Response) (t : EngineState)
    (hfind : s.inFlight.find? (fun q => q.id = r.id) = some r)
    (hre : matchesRequestException (removeInFlight r.id s) resp.text = false)
    (hdelay : s.onLoadDelay = 0)
    (herr : modifyPageAndHistory r.url r.isPop r.cbScroll resp (removeInFlight r.id s)
      = .error t) :
    handleComplete r.id 200 resp s = { t with errors := t.errors + 1 } ∧
    (handleComplete r.id 200 resp s).loc = s.loc ∧
    (handleComplete r.id 200 resp s).listenersBound = s.listenersBound ∧
    (handleComplete r.id 200 resp s).pendingTimer = s.pendingTimer ∧
    (handleComplete r.id 200 resp s).errors = s.errors + 1 := by
  have hfr := modifyPageAndHistory_frame _ _ _ _ _ _ (Or.inr herr)
  obtain ⟨-, -, -, -, -, f6, -, -, f9, -, -, f12, f13, -⟩ := hfr
  have heq : handleComplete r.id 200 resp s = { t with errors := t.errors + 1 } := by
    unfold handleComplete
    rw [hfind]
    dsimp only
    rw [if_neg (by simp), if_neg (by simp [hre]), if_neg (by simp [removeInFlight, hdelay]),
      herr]
  refine ⟨heq, ?_, ?_, ?_, ?_⟩
  · rw [heq]
    show t.loc = s.loc
    exact f12.trans rfl
  · rw [heq]
    show t.listenersBound = s.listenersBound
    exact f6.trans rfl
  · rw [heq]
    show t.pendingTimer = s.pendingTimer
    exact f9.trans rfl
  · rw [heq]
    show t.errors + 1 = s.errors + 1
    rw [f13]
    rfl

/-- The engine state of the C6 amended witness: no delay, one in-flight
request, an update matrix whose selector the host rejects. -/
def c6wState : EngineState :=
  { baseState with
      updateMatrix := [{ selector := "!!", updateHTML := true, updateAttrs := false }],
      badSelectors := ["!!"],
      xhr := some navReq,
      inFlight := [navReq] }

/-- The partially mutated state carried by the exception thrown while
applying the response in the C6 amended witness. -/
def c6wErr : EngineState :=
  runExcept (modifyPageAndHistory navReq.url navReq.isPop navReq.cbScroll c6Resp
    (removeInFlight navReq.id c6wState))

theorem claim6_exception_caught_amended_witness :
    handleComplete navReq.id 200 c6Resp c6wState
      = { c6wErr with errors := c6wErr.errors + 1 } ∧
    (handleComplete navReq.id 200 c6Resp c6wState).loc = c6wState.loc ∧
    (handleComplete navReq.id 200 c6Resp c6wState).listenersBound
      = c6wState.listenersBound ∧
    (handleComplete navReq.id 200 c6Resp c6wState).pendingTimer
      = c6wState.pendingTimer ∧
    (handleComplete navReq.id 200 c6Resp c6wState).errors = c6wState.errors + 1 :=
  claim6_exception_caught_amended c6wState navReq c6Resp c6wErr rfl rfl rfl rfl

/-! ## JS value model and configuration validation (`src/validation.js`) -/

/-- A model of the JS values the validation code inspects. Function values
carry no body: validation only tests them with `typeof`. -/
inductive JSVal where
  | undefined
  | jsnull
  | bool (b : Bool)
  | num (n : Int)
  | str (s : String)
  | func
  | arr (elems : List JSVal)
  | obj (fields : List (String × JSVal))

/-- Test `v === undefined`. -/
def isUndefined : JSVal → Bool
  | .undefined => true
  | _ => false

/-- Test `v === undefined || v === null`: the values whose destructuring or
member access throws a TypeError. -/
def isNullish : JSVal → Bool
  | .undefined => true
  | .jsnull => true
  | _ => false

/-- JS `typeof`. -/
def jsTypeof : JSVal → String
  | .undefined => "undefined"
  | .jsnull => "object"
  | .bool _ => "boolean"
  | .num _ => "number"
  | .str _ => "string"
  | .func => "function"
  | .arr _ => "object"
  | .obj _ => "object"

/-- Property access `v[name]` on a value whose member access does not
throw: the own property of an object, `undefined` otherwise. -/
def getField (v : JSVal) (name : String) : JSVal :=
  match v with
  | .obj fields => ((fields.find? (fun p => p.1 = name)).map (fun p => p.2)).getD .undefined
  | _ => .undefined

/-- Embeds `Array.isArray`. -/
def isArray : JSVal → Bool
  | .arr _ => true
  | _ => false

mutual

/-- Rendering of one element by `Array.prototype.join`: null and
undefined become the empty string, other values follow JS string
conversion (a nested array joins its elements with a comma; the host
rendering of a function value is fixed here). -/
def jsJoinElem : JSVal → String
  | .undefined => ""
  | .jsnull => ""
  | .bool b => if b then "true" else "false"
  | .num n => toString n
  | .str s => s
  | .func => "function () {}"
  | .arr l => jsJoin "," l
  | .obj _ => "[object Object]"

/-- Embeds `Array.prototype.join(sep)`. -/
def jsJoin (sep : String) : List JSVal → String
  | [] => ""
  | [x] => jsJoinElem x
  | x :: rest => jsJoinElem x ++ sep ++ jsJoin sep rest

end

/-- Embeds `BASE_ON_CLICK_EXCEPTIONS` from `src/constants.js`. -/
def BASE_ON_CLICK_EXCEPTIONS : List String :=
  ["a:not([href])", "[href^=\"http\"]", "[href^=\"#\"]", "[href^=\"/#\"]",
   "[target=\"_blank\"]", "[href^=\"tel\"]", "[href^=\"mailto\"]",
   "[href^=\"javascript\"]"]

/-- One iteration of the `matrix.every` callback in `isValidUpdateMatrix`:
destructuring `{ selector, updateHTML, updateAttrs }` throws on a nullish
rule; otherwise a non-string selector or a defined non-boolean flag is
rejected with one `console.error`. Returns (result, number of logged
errors). -/
def checkRule (r : JSVal) : Except Unit (Bool × Nat) :=
  if isNullish r then .error ()
  else
    let selector := getField r "selector"
    if jsTypeof selector ≠ "string" then .ok (false, 1)
    else
      let updateHTML := getField r "updateHTML"
      let updateAttrs := getField r "updateAttrs"
      if (jsTypeof updateHTML ≠ "undefined" ∧ jsTypeof updateHTML ≠ "boolean") ∨
         (jsTypeof updateAttrs ≠ "undefined" ∧ jsTypeof updateAttrs ≠ "boolean") then
        .ok (false, 1)
      else .ok (true, 0)

/-- Embeds `matrix.every(...)`: short-circuits at the first rejected rule, and
propagates a thrown TypeError. -/
def checkRules : List JSVal → Except Unit (Bool × Nat)
  | [] => .ok (true, 0)
  | r :: rest =>
    (checkRule r).bind (fun p => if p.1 then checkRules rest else .ok (false, p.2))

/-- Embeds `isValidUpdateMatrix(matrix)` from `src/validation.js`, with the
number of `console.error` calls. -/
def isValidUpdateMatrix (m : JSVal) : Except Unit (Bool × Nat) :=
  match m with
  | .arr l => checkRules l
  | _ => .ok (false, 1)

/-- Embeds `validateOptionalParam(param, type, fallback)`. -/
def validateOptionalParam (param : JSVal) (ty : String) (fallback : JSVal) :
    JSVal × Nat :=
  if isUndefined param then (fallback, 0)
  else if jsTypeof param ≠ ty then (fallback, 1)
  else (param, 0)

/-- Embeds `validateOnLoadDelay(delayTime)`. -/
def validateOnLoadDelay (delayTime : JSVal) : JSVal × Nat :=
  if isUndefined delayTime then (.num 0, 0)
  else if jsTypeof delayTime ≠ "number" then (.num 0, 1)
  else
    match delayTime with
    | .num n => if n < 0 then (.num 0, 1) else (.num n, 0)
    | _ => (.num 0, 1)

/-- A validated rule, as the engine later reads it under truthiness. -/
def toUpdateRule (r : JSVal) : UpdateRule :=
  { selector := match getField r "selector" with | .str s => s | _ => "",
    updateHTML := match getField r "updateHTML" with | .bool b => b | _ => false,
    updateAttrs := match getField r "updateAttrs" with | .bool b => b | _ => false }

/-- The browser capabilities the constructor requires. -/
structure HostEnv where
  hasHistory : Bool
  hasPushState : Bool
  hasQuerySelector : Bool
  /-- Whether `new RegExp(pattern, 'gi')` succeeds for a pattern string:
  the host regular-expression grammar; compilation throws a SyntaxError
  on the patterns it rejects. -/
  regexCompiles : String → Bool

/-- The observable result of running the constructor: whether the click
and popstate listeners were bound, how many diagnostics were logged, and
the validated configuration values assigned to the instance. -/
structure BuildResult where
  listenersBound : Bool
  errors : Nat
  updateMatrix : Option (List UpdateRule)
  timeout : JSVal
  enableCache : JSVal
  onLoadDelay : JSVal
  /-- The selector string assigned to `this.onClickExceptionSelector`. -/
  onClickExceptionSelector : String
  /-- Whether `this.onRequestExceptionRegex` was assigned. -/
  hasRequestRegex : Bool

/-- The inert instance produced when construction gives up early. -/
def inertResult (errors : Nat) : BuildResult :=
  { listenersBound := false, errors := errors, updateMatrix := none,
    timeout := .undefined, enableCache := .undefined, onLoadDelay := .undefined,
    onClickExceptionSelector := "", hasRequestRegex := false }

/-- The `Mercury` constructor together with `validateAndAssignConfig`
(`src/Mercury.js` lines 19-95). A missing capability logs and returns an
inert instance. Destructuring a nullish config throws. An invalid update
matrix aborts construction after logging. Otherwise every optional field
is validated to its default, `onClickExceptionSelector` is the
comma-join of the base exceptions with any caller array, and — last in
the source — `this.onRequestExceptionRegex = new
RegExp(onRequestExceptions.join('|'), 'gi')` runs when
`onRequestExceptions` is a non-empty array: when the host rejects the
joined pattern, that `RegExp` construction throws a SyntaxError that
surfaces past the constructor. On full success the listeners are bound.
The callback fields carry no state beyond their diagnostics. The
destructuring defaults `onClickExceptions = []` and
`onRequestExceptions = []` are absorbed into the non-array branches: an
absent field and an empty array produce the same selector and skip the
regex construction alike. -/
def mercuryConstructor (env : HostEnv) (config : JSVal) : Except Unit BuildResult :=
  if ¬(env.hasHistory ∧ env.hasPushState ∧ env.hasQuerySelector) then
    .ok (inertResult 1)
  else if isNullish config then .error ()
  else
    let updateMatrix := getField config "updateMatrix"
    match isValidUpdateMatrix updateMatrix with
    | .error e => .error e
    | .ok (false, k) => .ok (inertResult k)
    | .ok (true, k) =>
      let tmo := validateOptionalParam (getField config "timeout") "number" (.num 5000)
      let ec := validateOptionalParam (getField config "enableCache") "boolean" (.bool false)
      let onLoad := validateOptionalParam (getField config "onLoad") "function" .func
      let onUnload := validateOptionalParam (getField config "onUnload") "function" .func
      let onNavigate := validateOptionalParam (getField config "onNavigate") "function" .func
      let ld := validateOnLoadDelay (getField config "onLoadDelay")
      let clickSel :=
        match getField config "onClickExceptions" with
        | .arr l => jsJoin "," (BASE_ON_CLICK_EXCEPTIONS.map JSVal.str ++ l)
        | _ => jsJoin "," (BASE_ON_CLICK_EXCEPTIONS.map JSVal.str)
      let mkResult : Bool → BuildResult := fun hasRegex =>
        { listenersBound := true,
          errors := k + tmo.2 + ec.2 + onLoad.2 + onUnload.2 + onNavigate.2 + ld.2,
          updateMatrix :=
            some ((match updateMatrix with | .arr l => l | _ => []).map toUpdateRule),
          timeout := tmo.1, enableCache := ec.1, onLoadDelay := ld.1,
          onClickExceptionSelector := clickSel, hasRequestRegex := hasRegex }
      match getField config "onRequestExceptions" with
      | .arr l =>
          if l.length = 0 then .ok (mkResult false)
          else if env.regexCompiles (jsJoin "|" l) then .ok (mkResult true)
          else .error ()
      | _ => .ok (mkResult false)

/-! ## C9: acceptance condition of `isValidUpdateMatrix` -/

/-- The spec wording: the rule value is a string. -/
def isStr : JSVal → Bool
  | .str _ => true
  | _ => false

/-- The spec wording: the flag is absent or a boolean. -/
def boolOrAbsent : JSVal → Bool
  | .undefined => true
  | .bool _ => true
  | _ => false

/-- Acceptance condition for one rule, in the words of the spec: a string
selector, and `updateHTML` and `updateAttrs` each absent or boolean. -/
def specRuleAccept (r : JSVal) : Bool :=
  isStr (getField r "selector") && boolOrAbsent (getField r "updateHTML") &&
    boolOrAbsent (getField r "updateAttrs")

/-- Acceptance condition for the matrix, in the words of the spec: an
array in which every rule is accepted. -/
def specMatrixAccept : JSVal → Bool
  | .arr l => l.all specRuleAccept
  | _ => false

theorem jsTypeof_string_iff (v : JSVal) :
    jsTypeof v = "string" ↔ isStr v = true := by
  cases v <;> simp only [jsTypeof, isStr] <;> decide

theorem jsTypeof_flag_iff (v : JSVal) :
    (jsTypeof v ≠ "undefined" ∧ jsTypeof v ≠ "boolean") ↔ boolOrAbsent v = false := by
  cases v <;> simp only [jsTypeof, boolOrAbsent] <;> decide

theorem getField_nullish (r : JSVal) (name : String) (h : isNullish r = true) :
    getField r name = .undefined := by
  cases r <;> first | rfl | (exfalso; simp [isNullish] at h)

theorem checkRule_ok_iff (r : JSVal) :
    checkRule r = .ok (true, 0) ↔ specRuleAccept r = true := by
  unfold checkRule
  by_cases hn : isNullish r = true
  · rw [if_pos hn]
    have hsel := getField_nullish r "selector" hn
    unfold specRuleAccept
    rw [hsel]
    simp [isStr]
  · rw [if_neg hn]
    dsimp only
    by_cases hsel : jsTypeof (getField r "selector") ≠ "string"
    · rw [if_pos hsel]
      have hstr : isStr (getField r "selector") = false := by
        cases h : isStr (getField r "selector")
        · rfl
        · exact absurd ((jsTypeof_string_iff _).mpr h) hsel
      unfold specRuleAccept
      rw [hstr]
      simp
    · rw [if_neg hsel]
      have hstr : isStr (getField r "selector") = true :=
        (jsTypeof_string_iff _).mp (not_not.mp hsel)
      by_cases hflag :
          (jsTypeof (getField r "updateHTML") ≠ "undefined" ∧
            jsTypeof (getField r "updateHTML") ≠ "boolean") ∨
          (jsTypeof (getField r "updateAttrs") ≠ "undefined" ∧
            jsTypeof (getField r "updateAttrs") ≠ "boolean")
      · rw [if_pos hflag]
        unfold specRuleAccept
        rcases hflag with hf | hf
        · rw [(jsTypeof_flag_iff _).mp hf]
          simp
        · rw [(jsTypeof_flag_iff _).mp hf]
          simp
      · rw [if_neg hflag]
        push_neg at hflag
        obtain ⟨hf1, hf2⟩ := hflag
        have h1 : boolOrAbsent (getField r "updateHTML") = true := by
          cases h : boolOrAbsent (getField r "updateHTML")
          · exfalso
            obtain ⟨a, b⟩ := (jsTypeof_flag_iff _).mpr h
            exact b (hf1 a)
          · rfl
        have h2 : boolOrAbsent (getField r "updateAttrs") = true := by
          cases h : boolOrAbsent (getField r "updateAttrs")
          · exfalso
            obtain ⟨a, b⟩ := (jsTypeof_flag_iff _).mpr h
            exact b (hf2 a)
          · rfl
        unfold specRuleAccept
        rw [hstr, h1, h2]
        simp

theorem checkRule_cases (r : JSVal) :
    checkRule r = .error () ∨ checkRule r = .ok (false, 1) ∨
      checkRule r = .ok (true, 0) := by
  unfold checkRule
  split
  · exact Or.inl rfl
  · dsimp only
    split
    · exact Or.inr (Or.inl rfl)
    · split
      · exact Or.inr (Or.inl rfl)
      · exact Or.inr (Or.inr rfl)

theorem checkRules_ok_iff (l : List JSVal) :
    checkRules l = .ok (true, 0) ↔ l.all specRuleAccept = true := by
  induction l with
  | nil => simp [checkRules]
  | cons r rest ih =>
    rw [List.all_cons]
    show (checkRule r).bind (fun p => if p.1 then checkRules rest else .ok (false, p.2))
        = .ok (true, 0) ↔ (specRuleAccept r && rest.all specRuleAccept) = true
    rcases checkRule_cases r with hr | hr | hr
    · rw [hr]
      have hacc : specRuleAccept r = false := by
        cases h : specRuleAccept r
        · rfl
        · rw [← checkRule_ok_iff] at h
          rw [h] at hr
          exact absurd hr (by simp)
      rw [hacc]
      simp [Except.bind]
    · rw [hr]
      have hacc : specRuleAccept r = false := by
        cases h : specRuleAccept r
        · rfl
        · rw [← checkRule_ok_iff] at h
          rw [h] at hr
          exact absurd hr (by simp)
      rw [hacc]
      simp [Except.bind]
    · rw [hr]
      have hacc : specRuleAccept r = true := (checkRule_ok_iff r).mp hr
      rw [hacc]
      simpa [Except.bind] using ih

/-- C9: `isValidUpdateMatrix` accepts an input (returns `true`, with no
diagnostics) precisely when the input is an array in which every rule has
a string `selector` and `updateHTML` and `updateAttrs` are each absent or
boolean. A nullish rule makes the validator throw instead of returning,
which is likewise not acceptance. -/
theorem claim9_isValidUpdateMatrix_iff (m : JSVal) :
    isValidUpdateMatrix m = .ok (true, 0) ↔ specMatrixAccept m = true := by
  cases m with
  | arr l => exact checkRules_ok_iff l
  | undefined => simp [isValidUpdateMatrix, specMatrixAccept]
  | jsnull => simp [isValidUpdateMatrix, specMatrixAccept]
  | bool b => simp [isValidUpdateMatrix, specMatrixAccept]
  | num n => simp [isValidUpdateMatrix, specMatrixAccept]
  | str s => simp [isValidUpdateMatrix, specMatrixAccept]
  | func => simp [isValidUpdateMatrix, specMatrixAccept]
  | obj fields => simp [isValidUpdateMatrix, specMatrixAccept]

/-! ## C8: constructor error behavior -/

theorem checkRule_no_throw (r : JSVal) (h : isNullish r = false) :
    checkRule r ≠ .error () := by
  unfold checkRule
  rw [if_neg (by simp [h])]
  dsimp only
  split
  · simp
  · split <;> simp

theorem checkRules_no_throw (l : List JSVal)
    (h : ∀ r ∈ l, isNullish r = false) :
    checkRules l = .ok (true, 0) ∨ ∃ k, checkRules l = .ok (false, k) ∧ 1 ≤ k := by
  induction l with
  | nil => exact Or.inl rfl
  | cons r rest ih =>
    have hr : isNullish r = false := h r (by simp)
    have hcons : checkRules (r :: rest)
        = (checkRule r).bind (fun p => if p.1 then checkRules rest else .ok (false, p.2)) :=
      rfl
    rcases checkRule_cases r with hc | hc | hc
    · exact absurd hc (checkRule_no_throw r hr)
    · rw [hcons, hc]
      exact Or.inr ⟨1, rfl, le_refl 1⟩
    · rw [hcons, hc]
      rcases ih (fun q hq => h q (by simp [hq])) with hrest | ⟨k, hrest, hk⟩
      · exact Or.inl hrest
      · exact Or.inr ⟨k, hrest, hk⟩

theorem isValidUpdateMatrix_no_throw (m : JSVal)
    (h : ∀ l, m = .arr l → ∀ r ∈ l, isNullish r = false) :
    isValidUpdateMatrix m = .ok (true, 0) ∨
      ∃ k, isValidUpdateMatrix m = .ok (false, k) ∧ 1 ≤ k := by
  cases m with
  | arr l => exact checkRules_no_throw l (h l rfl)
  | undefined => exact Or.inr ⟨1, rfl, le_refl 1⟩
  | jsnull => exact Or.inr ⟨1, rfl, le_refl 1⟩
  | bool b => exact Or.inr ⟨1, rfl, le_refl 1⟩
  | num n => exact Or.inr ⟨1, rfl, le_refl 1⟩
  | str s => exact Or.inr ⟨1, rfl, le_refl 1⟩
  | func => exact Or.inr ⟨1, rfl, le_refl 1⟩
  | obj fields => exact Or.inr ⟨1, rfl, le_refl 1⟩

/-- An environment with every required capability. -/
def envFull : HostEnv :=
  { hasHistory := true, hasPushState := true, hasQuerySelector := true,
    regexCompiles := fun _ => true }

/-- A host whose regular-expression grammar rejects the lone open
parenthesis, as every JS host does. -/
def envParen : HostEnv :=
  { hasHistory := true, hasPushState := true, hasQuerySelector := true,
    regexCompiles := fun p => p != "(" }

/-- A config that is a well-formed object with a valid update matrix but
whose `onRequestExceptions` joins to a pattern the host rejects. -/
def c8BadRegexConfig : JSVal :=
  .obj [("updateMatrix", .arr []), ("onRequestExceptions", .arr [.str "("])]

/-- C8 counterexample: construction is not throw-free for every config
value. First, an absent (`undefined`) config reaches
`validateAndAssignConfig`, whose parameter destructuring of `undefined`
raises a TypeError that surfaces to the caller. Second, even a non-null
object config with a valid update matrix throws when
`onRequestExceptions` is a non-empty array whose entries join to a
pattern the host regex grammar rejects: `new
RegExp(onRequestExceptions.join('|'), 'gi')` raises a SyntaxError past
the constructor. -/
theorem claim8_never_throws_counterexample :
    mercuryConstructor envFull JSVal.undefined = .error () ∧
    mercuryConstructor envParen c8BadRegexConfig = .error () :=
  ⟨rfl, rfl⟩

/-- C8 (amended): construction never lets an error surface provided the
config value is not undefined or null, none of the entries of its
`updateMatrix` field (when an array) is undefined or null, and its
`onRequestExceptions` field, when a non-empty array, joins to a pattern
the host regular-expression grammar accepts: under those provisos it
either binds the listeners or leaves the instance inert with at least
one logged diagnostic. Outside them an error surfaces to the caller: a
nullish config or matrix entry throws a TypeError from destructuring,
and a rejected pattern makes the `new RegExp` construction throw a
SyntaxError (see the counterexample for both). -/
theorem claim8_never_throws_amended (env : HostEnv) (config : JSVal)
    (hnn : isNullish config = false)
    (hrules : ∀ l, getField config "updateMatrix" = .arr l →
      ∀ r ∈ l, isNullish r = false)
    (hregex : ∀ l, getField config "onRequestExceptions" = .arr l → l ≠ [] →
      env.regexCompiles (jsJoin "|" l) = true) :
    ∃ b, mercuryConstructor env config = .ok b ∧
      (b.listenersBound = true ∨ 1 ≤ b.errors) := by
  unfold mercuryConstructor
  by_cases henv : ¬(env.hasHistory = true ∧ env.hasPushState = true ∧
      env.hasQuerySelector = true)
  · rw [if_pos henv]
    exact ⟨inertResult 1, rfl, Or.inr (le_refl 1)⟩
  · rw [if_neg henv, if_neg (by simp [hnn])]
    dsimp only
    rcases isValidUpdateMatrix_no_throw (getField config "updateMatrix") hrules with
      hm | ⟨k, hm, hk⟩
    · rw [hm]
      dsimp only
      cases hreq : getField config "onRequestExceptions" with
      | arr l =>
        dsimp only
        by_cases hlen : l.length = 0
        · rw [if_pos hlen]
          exact ⟨_, rfl, Or.inl rfl⟩
        · rw [if_neg hlen,
            if_pos (hregex l hreq (fun hnil => hlen (by rw [hnil]; rfl)))]
          exact ⟨_, rfl, Or.inl rfl⟩
      | undefined => exact ⟨_, rfl, Or.inl rfl⟩
      | jsnull => exact ⟨_, rfl, Or.inl rfl⟩
      | bool b => exact ⟨_, rfl, Or.inl rfl⟩
      | num n => exact ⟨_, rfl, Or.inl rfl⟩
      | str s => exact ⟨_, rfl, Or.inl rfl⟩
      | func => exact ⟨_, rfl, Or.inl rfl⟩
      | obj fields => exact ⟨_, rfl, Or.inl rfl⟩
    · rw [hm]
      exact ⟨inertResult k, rfl, Or.inr hk⟩

/-- The config of the C8 amended witness: an object with an empty valid
update matrix and no `onRequestExceptions`. -/
def c8wConfig : JSVal := .obj [("updateMatrix", .arr [])]

theorem claim8_never_throws_amended_witness :
    ∃ b, mercuryConstructor envFull c8wConfig = .ok b ∧
      (b.listenersBound = true ∨ 1 ≤ b.errors) :=
  claim8_never_throws_amended envFull c8wConfig rfl
    (by
      intro l hl r hr
      have h2 := JSVal.arr.inj hl
      rw [← h2] at hr
      exact absurd hr (List.not_mem_nil r))
    (fun l hl _ => absurd hl (fun h => JSVal.noConfusion h))

end Mercury
